import Mathlib

/-!
# Verification of the Parrator text-cleanup core

A shallow embedding of `parrator/cleanup/rule_engine.py`,
`parrator/cleanup/manager.py` and `parrator/cleanup/http_engine.py`.

Python strings are modelled as `List Char` (Python strings are sequences of
Unicode code points).  The regex substitutions and scans of the source are
modelled by executable scanner functions with Python `re` semantics
(leftmost match, greedy quantifiers with the backtracking the concrete
patterns require, non-overlapping continuation after each match).
Character classes `\s` and `\w` are modelled over their ASCII extent
(`\s` as the six ASCII whitespace characters, `\w` as ASCII alphanumerics
plus underscore); every input appearing in a concrete theorem below is
ASCII, where this model agrees with Python exactly.
-/

/-- Python `str` values, as lists of code points. -/
abbrev Str := List Char

/-- Code points of a string literal. -/
def ofStr (s : String) : Str := s.data

/-- ASCII extent of Python's `\s` class (space, tab, LF, CR, VT, FF). -/
def pyIsSpace (c : Char) : Bool :=
  c == ' ' || c == '\t' || c == '\n' || c == '\r' || c.toNat == 11 || c.toNat == 12

/-- ASCII lowercase letter, class `[a-z]`. -/
def isLowerAsc (c : Char) : Bool := 'a' ≤ c && c ≤ 'z'

/-- ASCII uppercase letter, class `[A-Z]`. -/
def isUpperAsc (c : Char) : Bool := 'A' ≤ c && c ≤ 'Z'

/-- ASCII letter, class `[a-zA-Z]`. -/
def isAlphaAsc (c : Char) : Bool := isLowerAsc c || isUpperAsc c

/-- ASCII digit, class `[0-9]`. -/
def isDigitAsc (c : Char) : Bool := '0' ≤ c && c ≤ '9'

/-- ASCII extent of Python's `\w` class: alphanumerics and underscore. -/
def isWordCh (c : Char) : Bool := isAlphaAsc c || isDigitAsc c || c == '_'

/-- Word-character test on an optional character (`none` = no character). -/
def isWordOpt : Option Char → Bool
  | none => false
  | some c => isWordCh c

/-- The punctuation class `[,.!?;:]` used throughout the rule engine. -/
def punctCh (c : Char) : Bool :=
  c == ',' || c == '.' || c == '!' || c == '?' || c == ';' || c == ':'

/-- The sentence-ending class `[.!?]`. -/
def sentPunct (c : Char) : Bool := c == '.' || c == '!' || c == '?'

/-- Case-insensitive character comparison (ASCII case folding, as the
IGNORECASE patterns of the source use on their ASCII contents). -/
def ciEq (a b : Char) : Bool := a.toLower == b.toLower

/-- Case-insensitive prefix test. -/
def ciPrefixOf : Str → Str → Bool
  | [], _ => true
  | _ :: _, [] => false
  | a :: as, b :: bs => ciEq a b && ciPrefixOf as bs

/-- Length of the leading run of characters satisfying `p`. -/
def countWhile (p : Char → Bool) (l : Str) : Nat := (l.takeWhile p).length

/-- Python `str.strip()` (over the modelled whitespace class). -/
def pyStrip (t : Str) : Str :=
  ((t.dropWhile pyIsSpace).reverse.dropWhile pyIsSpace).reverse

/-- Python falsiness of `text` combined with `not text.strip()`:
the guard `if not text or not text.strip()` holds exactly when every
character is whitespace (including the empty string). -/
def pyFalsy (t : Str) : Bool := t.all pyIsSpace

/-- Python `str.replace(pat, rep)` (all non-overlapping occurrences, left to
right), with fuel; the callers always pass a non-empty pattern. -/
def replaceAllF : Nat → Str → Str → Str → Str
  | 0, t, _, _ => t
  | _ + 1, [], _, _ => []
  | f + 1, c :: rest, pat, rep =>
    if pat ≠ [] ∧ pat.isPrefixOf (c :: rest) then
      rep ++ replaceAllF f ((c :: rest).drop pat.length) pat rep
    else
      c :: replaceAllF f rest pat rep

/-- Python `str.replace`. -/
def replaceAll (t pat rep : Str) : Str := replaceAllF t.length t pat rep

/-- A substitution matcher: given the absolute position, the previous
character of the original text (for `\b`) and the current suffix, return
`some (extra, rep)` when the pattern matches a span of `extra + 1`
characters here, to be replaced by `rep`. -/
def Matcher := Nat → Option Char → Str → Option (Nat × Str)

/-- `re.sub` driver: scan left to right, apply the matcher at each
position, emit replacements, and continue after each match (matches never
overlap; the text already emitted is not rescanned).  Fuel is the length
of the remaining text; every match consumes at least one character. -/
def runSubF (m : Matcher) : Nat → Nat → Option Char → Str → Str
  | 0, _, _, t => t
  | _ + 1, _, _, [] => []
  | f + 1, pos, prev, c :: rest =>
    match m pos prev (c :: rest) with
    | some (extra, rep) =>
      rep ++ runSubF m f (pos + 1 + extra) (some ((rest.take extra).getLastD c)) (rest.drop extra)
    | none => c :: runSubF m f (pos + 1) (some c) rest

/-- `re.sub` over a whole text. -/
def runSub (m : Matcher) (t : Str) : Str := runSubF m t.length 0 none t

/-- A `finditer` matcher: previous character and suffix to `some extra`
when the pattern matches `extra + 1` characters here. -/
def FindM := Option Char → Str → Option Nat

/-- `re.finditer` driver: all non-overlapping matches, scanning left to
right, as `(start, end, matched text)` triples. -/
def finditerF (m : FindM) : Nat → Nat → Option Char → Str → List (Nat × Nat × Str)
  | 0, _, _, _ => []
  | _ + 1, _, _, [] => []
  | f + 1, pos, prev, c :: rest =>
    match m prev (c :: rest) with
    | some extra =>
      (pos, pos + 1 + extra, c :: rest.take extra) ::
        finditerF m f (pos + 1 + extra) (some ((rest.take extra).getLastD c)) (rest.drop extra)
    | none => finditerF m f (pos + 1) (some c) rest

/-- `re.finditer` over a whole text. -/
def finditer (m : FindM) (t : Str) : List (Nat × Nat × Str) :=
  finditerF m t.length 0 none t

/-! ## The five preserve patterns (`_compile_patterns`, lines 52-61) -/

/-- `https?://[^\s]+` (case-sensitive).  `s?` is greedy; if an `s` is
present but not followed by `://` the alternative without `s` cannot match
either, so the match is deterministic. -/
def urlFind : FindM := fun _ s =>
  if (ofStr "https://").isPrefixOf s then
    let body := countWhile (fun c => !pyIsSpace c) (s.drop 8)
    if body ≥ 1 then some (8 + body - 1) else none
  else if (ofStr "http://").isPrefixOf s then
    let body := countWhile (fun c => !pyIsSpace c) (s.drop 7)
    if body ≥ 1 then some (7 + body - 1) else none
  else none

/-- Character class `[A-Za-z0-9._%+-]` of the email local part. -/
def emailLocalCh (c : Char) : Bool :=
  isAlphaAsc c || isDigitAsc c || c == '.' || c == '_' || c == '%' || c == '+' || c == '-'

/-- Character class `[A-Za-z0-9.-]` of the email domain part. -/
def emailDomainCh (c : Char) : Bool :=
  isAlphaAsc c || isDigitAsc c || c == '.' || c == '-'

/-- Character class `[A-Z|a-z]` of the email TLD part (the source's class
literally contains `|`). -/
def emailTldCh (c : Char) : Bool := isAlphaAsc c || c == '|'

/-- Search `n, n-1, ..., 1` for the first success of `f`. -/
def searchDown (f : Nat → Option Nat) : Nat → Option Nat
  | 0 => none
  | n + 1 =>
    match f (n + 1) with
    | some r => some r
    | none => searchDown f n

/-- A word boundary `\b` between an optional previous character and an
optional next character: exactly one of the two is a word character. -/
def wordBoundary (a b : Option Char) : Bool := isWordOpt a != isWordOpt b

/-- `\b[A-Za-z0-9._%+-]+@[A-Za-z0-9.-]+\.[A-Z|a-z]{2,}\b` with the
backtracking Python performs: the local part is maximal (its class
excludes `@`), the domain part backtracks from longest to shortest to
leave a literal `.` and a TLD of at least two characters, and the greedy
TLD backtracks from longest to shortest to satisfy the final `\b`. -/
def emailFind : FindM := fun prev s =>
  match s with
  | [] => none
  | c :: _ =>
    if !wordBoundary prev (some c) then none
    else
      let locLen := countWhile emailLocalCh s
      if locLen = 0 then none
      else
        let s1 := s.drop locLen
        match s1 with
        | '@' :: s2 =>
          let dmax := countWhile emailDomainCh s2
          searchDown
            (fun d =>
              if d < dmax ∧ s2.get? d = some '.' then
                let s3 := s2.drop (d + 1)
                let tmax := countWhile emailTldCh s3
                searchDown
                  (fun t =>
                    if 2 ≤ t ∧ t ≤ tmax then
                      match (s3.take t).getLast? with
                      | some lastc =>
                        if wordBoundary (some lastc) ((s3.drop t).head?) then
                          some (locLen + 1 + d + 1 + t - 1)
                        else none
                      | none => none
                    else none)
                  tmax
              else none)
            dmax
        | _ => none

/-- `` `[^`]+` ``: a backtick, at least one non-backtick, a backtick. -/
def codeFind : FindM := fun _ s =>
  match s with
  | '`' :: rest =>
    let run := countWhile (fun c => c != '`') rest
    if run ≥ 1 ∧ rest.get? run = some '`' then some (run + 1) else none
  | _ => none

/-- `#[A-Za-z0-9_]+`. -/
def hashtagFind : FindM := fun _ s =>
  match s with
  | '#' :: rest =>
    let run := countWhile isWordCh rest
    if run ≥ 1 then some run else none
  | _ => none

/-- The single-character emoji class of `_compile_patterns`. -/
def emojiCh (c : Char) : Bool :=
  (0x1F600 ≤ c.toNat && c.toNat ≤ 0x1F64F) ||
  (0x1F300 ≤ c.toNat && c.toNat ≤ 0x1F5FF) ||
  (0x1F680 ≤ c.toNat && c.toNat ≤ 0x1F6FF) ||
  (0x1F1E0 ≤ c.toNat && c.toNat ≤ 0x1F1FF)

/-- The emoji pattern: one character of the class. -/
def emojiFind : FindM := fun _ s =>
  match s with
  | c :: _ => if emojiCh c then some 0 else none
  | [] => none

/-- The match collection of `_pre_clean` (lines 122-132): all matches of
the five preserve patterns, in pattern order url, email, code, hashtag,
emoji, each pattern's matches in order of appearance. -/
def allPreMatches (t : Str) : List (Nat × Nat × Str) :=
  finditer urlFind t ++ finditer emailFind t ++ finditer codeFind t ++
    finditer hashtagFind t ++ finditer emojiFind t

/-- The match collection of `_final_clean` (lines 227-230): url, email and
code patterns only. -/
def finalMatches (t : Str) : List (Nat × Nat × Str) :=
  finditer urlFind t ++ finditer emailFind t ++ finditer codeFind t

/-- Stable insertion for descending sort on the start offset:
`x` goes after every element whose start is `≥` its own, matching
Python's stable `list.sort(key=..., reverse=True)`. -/
def insertDesc (x : Nat × Nat × Str) : List (Nat × Nat × Str) → List (Nat × Nat × Str)
  | [] => [x]
  | y :: ys => if x.1 > y.1 then x :: y :: ys else y :: insertDesc x ys

/-- `all_matches.sort(key=lambda x: x[0], reverse=True)` (stable). -/
def sortDesc (l : List (Nat × Nat × Str)) : List (Nat × Nat × Str) :=
  l.foldl (fun acc x => insertDesc x acc) []

/-- The replacement loop of the protection passes (lines 137-141 and
234-239): walk the descending match list, splicing a fresh placeholder
over each `[start, end)` range of the current text and recording
`(placeholder, original segment)` in insertion order. -/
def protectGo (base : Str) : Nat → Str → List (Nat × Nat × Str) → Str × List (Str × Str)
  | _, t, [] => (t, [])
  | n, t, (s, e, content) :: ms =>
    let ph := base ++ (Nat.repr n).data ++ ['_', '_']
    let t1 := t.take s ++ ph ++ t.drop e
    let res := protectGo base (n + 1) t1 ms
    (res.1, (ph, content) :: res.2)

/-- The protect step of `_pre_clean`: placeholders `__PRESERVED_<n>__`. -/
def pre_protect (t : Str) : Str × List (Str × Str) :=
  protectGo (ofStr "__PRESERVED_") 0 t (sortDesc (allPreMatches t))

/-- The protect step of `_final_clean`: placeholders
`__FINAL_PRESERVED_<n>__`. -/
def final_protect (t : Str) : Str × List (Str × Str) :=
  protectGo (ofStr "__FINAL_PRESERVED_") 0 t (sortDesc (finalMatches t))

/-- The restore step (lines 156-158 and 267-269): literal `str.replace` of
every placeholder by its stored content, in insertion order. -/
def restore (t : Str) (map : List (Str × Str)) : Str :=
  map.foldl (fun acc p => replaceAll acc p.1 p.2) t

/-! ## Whitespace and punctuation normalization -/

/-- `\s+` → `" "` (`whitespace_pattern.sub`), written as a direct scanner:
each maximal whitespace run becomes a single space. -/
def collapseWsF : Nat → Str → Str
  | 0, t => t
  | _ + 1, [] => []
  | f + 1, c :: rest =>
    if pyIsSpace c then ' ' :: collapseWsF f (rest.dropWhile pyIsSpace)
    else c :: collapseWsF f rest

/-- `whitespace_pattern.sub(" ", t)`. -/
def collapseWs (t : Str) : Str := collapseWsF t.length t

/-- `\s*([,.!?;:])\s*` → `" \1 "` (`punctuation_spacing_pattern`, line 147):
leading whitespace run (possibly empty), one punctuation character,
trailing whitespace run, replaced by the punctuation with one space on
each side. -/
def punctSpM : Matcher := fun _ _ s =>
  let a := countWhile pyIsSpace s
  match (s.drop a).head? with
  | some p =>
    if punctCh p then
      let b := countWhile pyIsSpace (s.drop (a + 1))
      some (a + b, [' ', p, ' '])
    else none
  | none => none

/-- `\b(\w+)(?:\s+\1)+\b` → `\1` (IGNORECASE), `repeated_words_pattern`.
The group `\w+` must be the maximal word run (a shorter prefix is
followed by a word character, so `\s+` cannot match there); repetitions
are collected greedily and the count backtracks to satisfy the final
`\b`.  Each repetition consumes a whitespace run and a case-insensitive
copy of the group.  The replacement is the group as matched. -/
def collectRepsF (w : Str) : Nat → Str → List Nat
  | 0, _ => []
  | f + 1, s =>
    let sp := countWhile pyIsSpace s
    if sp = 0 then []
    else
      let s2 := s.drop sp
      if ciPrefixOf w s2 then (sp + w.length) :: collectRepsF w f (s2.drop w.length)
      else []

/-- Cumulative totals of the repetition lengths, for backtracking. -/
def cumSums : Nat → List Nat → List Nat
  | _, [] => []
  | acc, x :: xs => (acc + x) :: cumSums (acc + x) xs

/-- The repeated-words matcher. -/
def repWordsM : Matcher := fun _ prev s =>
  if isWordOpt prev then none
  else
    match s with
    | [] => none
    | c :: _ =>
      if !isWordCh c then none
      else
        let w := s.takeWhile isWordCh
        let reps := collectRepsF w s.length (s.drop w.length)
        let totals := (cumSums 0 reps).reverse
        match totals.find? (fun tot => !isWordOpt ((s.drop (w.length + tot)).head?)) with
        | some tot => some (w.length + tot - 1, w)
        | none => none

/-- `([a-zA-Z])\1{2,}` → `\1\1` (case-sensitive), `repeated_letters_pattern`:
a run of three or more identical letters collapses to exactly two. -/
def repLetM : Matcher := fun _ _ s =>
  match s with
  | c :: rest =>
    if isAlphaAsc c then
      let run := countWhile (fun d => d == c) rest
      if run ≥ 2 then some (run, [c, c]) else none
    else none
  | [] => none

/-- `_pre_clean` (lines 112-160): protect all five categories, collapse
whitespace on the stripped text, space out punctuation, collapse again,
drop adjacent duplicate words, collapse letter runs, restore. -/
def pre_clean (t : Str) : Str :=
  if pyFalsy t then []
  else
    let p := pre_protect t
    let t2 := collapseWs (pyStrip p.1)
    let t3 := collapseWs (runSub punctSpM t2)
    let t4 := runSub repWordsM t3
    let t5 := runSub repLetM t4
    restore t5 p.2

/-! ## Conservative mode (`_conservative_clean`, `_sentence_capitalization`) -/

/-- `\bi\b` → `"I"` (IGNORECASE), `i_pattern`. -/
def iM : Matcher := fun _ prev s =>
  match s with
  | c :: rest =>
    if (c == 'i' || c == 'I') && !isWordOpt prev && !isWordOpt rest.head? then
      some (0, ['I'])
    else none
  | [] => none

/-- `\b(a)\s+([aeiou])` → `"an \2"` (IGNORECASE), `a_an_pattern`. -/
def aAnM : Matcher := fun _ prev s =>
  match s with
  | c :: rest =>
    if (c == 'a' || c == 'A') && !isWordOpt prev then
      let sp := countWhile pyIsSpace rest
      if sp ≥ 1 then
        match (rest.drop sp).head? with
        | some v =>
          if (ofStr "aeiouAEIOU").contains v then some (sp + 1, ofStr "an " ++ [v])
          else none
        | none => none
      else none
    else none
  | [] => none

/-- `\b(an)\s+([bcdfghjklmnpqrstvwxyz])` → `"a \2"` (IGNORECASE),
`an_consonant_pattern`. -/
def anConsM : Matcher := fun _ prev s =>
  if !isWordOpt prev && ciPrefixOf (ofStr "an") s then
    let rest := s.drop 2
    let sp := countWhile pyIsSpace rest
    if sp ≥ 1 then
      match (rest.drop sp).head? with
      | some k =>
        if isAlphaAsc k && !(ofStr "aeiouAEIOU").contains k then
          some (sp + 2, ofStr "a " ++ [k])
        else none
      | none => none
    else none
  else none

/-- A position is safe to capitalize when it is inside no preserved range
(`capitalize_safely`). -/
def safePos (ranges : List (Nat × Nat)) (pos : Nat) : Bool :=
  !(ranges.any (fun r => r.1 ≤ pos && pos < r.2))

/-- `([.!?]+)\s*([a-z])` with the `capitalize_match` replacement function
(lines 431-441): the boundary run, one space and the upper-cased letter
when the letter's position is safe, the match unchanged otherwise. -/
def sentBoundM (ranges : List (Nat × Nat)) : Matcher := fun pos _ s =>
  let p := countWhile sentPunct s
  if p = 0 then none
  else
    let sp := countWhile pyIsSpace (s.drop p)
    match (s.drop (p + sp)).head? with
    | some c =>
      if isLowerAsc c then
        if safePos ranges (pos + p + sp) then
          some (p + sp, s.take p ++ [' ', c.toUpper])
        else
          some (p + sp, s.take (p + sp + 1))
      else none
    | none => none

/-- `_sentence_capitalization` (lines 414-443): recompute url/email/code
ranges, capitalize position 0 when safe, then capitalize after sentence
boundaries when safe. -/
def sentence_capitalization (t : Str) : Str :=
  let ranges := (finditer urlFind t ++ finditer emailFind t ++ finditer codeFind t).map
    (fun m => (m.1, m.2.1))
  let t1 :=
    match t with
    | [] => []
    | c :: rest => if safePos ranges 0 then c.toUpper :: rest else c :: rest
  runSub (sentBoundM ranges) t1

/-- `_conservative_clean` (lines 162-174). -/
def conservative_clean (t : Str) : Str :=
  sentence_capitalization (runSub anConsM (runSub aAnM (runSub iM t)))

/-! ## Filler removal (`_remove_filler_words_safe`) -/

/-- The default filler-word list of `_compile_patterns` (lines 24-46),
which is also what `CleanupManager._initialize_engines` passes to the
rule engine's config. -/
def fillerWordsDefault : List Str :=
  [ofStr "um", ofStr "uh", ofStr "er", ofStr "ah", ofStr "like",
   ofStr "you know", ofStr "i mean", ofStr "sort of", ofStr "kind of",
   ofStr "right", ofStr "yeah", ofStr "yep", ofStr "yup", ofStr "hmm",
   ofStr "well", ofStr "anyway", ofStr "basically"]

/-- `\b` after a word: the next character is absent or not a word
character (all filler words and phrases end in a letter). -/
def boundaryAfter (w : Str) (s : Str) : Bool := !isWordOpt ((s.drop w.length).head?)

/-- The filler alternation `\b(?:w1|w2|...)\b` (IGNORECASE) with the
`replace_filler` function of lines 300-313: a filler whose span lies
inside a preserved segment is kept verbatim, any other is removed.
Alternatives are tried in list order; the first that also satisfies the
trailing `\b` wins. -/
def fillerM (ws : List Str) (segs : List (Nat × Nat)) : Matcher := fun pos prev s =>
  if isWordOpt prev then none
  else
    match ws.find? (fun w => w ≠ [] && ciPrefixOf w s && boundaryAfter w s) with
    | some w =>
      let e := pos + w.length
      let preserved := segs.any (fun r => r.1 ≤ pos && e ≤ r.2)
      some (w.length - 1, if preserved then s.take w.length else [])
    | none => none

/-- `([.!?])\s+([a-z])` with upper-casing replacement (lines 329-331). -/
def punctLowerM : Matcher := fun _ _ s =>
  match s with
  | p :: rest =>
    if sentPunct p then
      let sp := countWhile pyIsSpace rest
      if sp ≥ 1 then
        match (rest.drop sp).head? with
        | some c => if isLowerAsc c then some (sp + 1, [p, ' ', c.toUpper]) else none
        | none => none
      else none
    else none
  | [] => none

/-- The sentence-starter list of lines 335-344. -/
def sentenceStarters : List Str :=
  [ofStr "thanks", ofStr "thank", ofStr "please", ofStr "sorry",
   ofStr "excuse", ofStr "hey", ofStr "hi", ofStr "hello"]

/-- Python `str.capitalize()`: first character upper, rest lower. -/
def capStr : Str → Str
  | [] => []
  | c :: rest => c.toUpper :: rest.map Char.toLower

/-- `([a-z])\s+(thanks|thank|...)\b` (IGNORECASE, so the first group also
matches uppercase letters) with replacement `\1. ` + `\2.capitalize()`
(lines 345-351). -/
def startersM : Matcher := fun _ _ s =>
  match s with
  | g1 :: rest =>
    if isAlphaAsc g1 then
      let sp := countWhile pyIsSpace rest
      if sp ≥ 1 then
        let s2 := rest.drop sp
        match sentenceStarters.find? (fun w => ciPrefixOf w s2 && boundaryAfter w s2) with
        | some w => some (sp + w.length, [g1] ++ ofStr ". " ++ capStr (s2.take w.length))
        | none => none
      else none
    else none
  | [] => none

/-- `_remove_filler_words_safe` (lines 283-353), with `ws` the value of
`config.get("filler_words", [])`. -/
def remove_filler_words_safe (ws : List Str) (t : Str) : Str :=
  let segs := (allPreMatches t).map (fun m => (m.1, m.2.1))
  let t1 := runSub (fillerM ws segs) t
  let t2 := collapseWs (pyStrip t1)
  let t3 := runSub punctLowerM t2
  runSub startersM t3

/-! ## Phrase removal and tightening -/

/-- `\b<phrase>\b` → rep (IGNORECASE); every phrase starts and ends with a
letter, so the boundaries reduce to non-word neighbours. -/
def phraseM (phrase rep : Str) : Matcher := fun _ prev s =>
  if !isWordOpt prev && ciPrefixOf phrase s && boundaryAfter phrase s then
    some (phrase.length - 1, rep)
  else none

/-- One case-insensitive whole-phrase substitution. -/
def phraseSub (phrase rep : Str) (t : Str) : Str := runSub (phraseM phrase rep) t

/-- `\s*,\s*,\s*` → `", "` (line 372). -/
def doubleCommaM : Matcher := fun _ _ s =>
  let a := countWhile pyIsSpace s
  match s.drop a with
  | ',' :: r1 =>
    let b := countWhile pyIsSpace r1
    match r1.drop b with
    | ',' :: r2 =>
      let c := countWhile pyIsSpace r2
      some (a + b + c + 1, ofStr ", ")
    | _ => none
  | _ => none

/-- `,\s*,` → `","` (line 373). -/
def commaCommaM : Matcher := fun _ _ s =>
  match s with
  | ',' :: rest =>
    let b := countWhile pyIsSpace rest
    match rest.drop b with
    | ',' :: _ => some (b + 1, [','])
    | _ => none
  | _ => none

/-- The redundant-phrase table of lines 357-365. -/
def redundantPhrases : List Str :=
  [ofStr "i think", ofStr "i feel like", ofStr "it seems like",
   ofStr "what i mean is", ofStr "the thing is", ofStr "kind of", ofStr "sort of"]

/-- `_remove_redundant_phrases` (lines 355-375). -/
def remove_redundant_phrases (t : Str) : Str :=
  let t1 := redundantPhrases.foldl (fun acc p => phraseSub p [] acc) t
  runSub commaCommaM (runSub doubleCommaM (collapseWs t1))

/-- The tightening table of lines 379-387. -/
def tighteningPairs : List (Str × Str) :=
  [(ofStr "in order to", ofStr "to"),
   (ofStr "due to the fact that", ofStr "because"),
   (ofStr "at this point in time", ofStr "now"),
   (ofStr "for the purpose of", ofStr "for"),
   (ofStr "on the basis of", ofStr "based on"),
   (ofStr "with regard to", ofStr "about"),
   (ofStr "in the event that", ofStr "if")]

/-- `_aggressive_tightening` (lines 377-392). -/
def aggressive_tightening (t : Str) : Str :=
  tighteningPairs.foldl (fun acc p => phraseSub p.1 p.2 acc) t

/-- `\bis\b\s+(\w+)\s+\bby\b` → `\1` (IGNORECASE) and its `are` twin
(lines 397-398).  The verb group is the maximal word run (a shorter
prefix is followed by a word character). -/
def passiveM (verb : Str) : Matcher := fun _ prev s =>
  if !isWordOpt prev && ciPrefixOf verb s then
    let r1 := s.drop verb.length
    if !isWordOpt r1.head? then
      let sp1 := countWhile pyIsSpace r1
      if sp1 ≥ 1 then
        let r2 := r1.drop sp1
        let w := r2.takeWhile isWordCh
        if w ≠ [] then
          let r3 := r2.drop w.length
          let sp2 := countWhile pyIsSpace r3
          if sp2 ≥ 1 then
            let r4 := r3.drop sp2
            if ciPrefixOf (ofStr "by") r4 && boundaryAfter (ofStr "by") r4 then
              some (verb.length + sp1 + w.length + sp2 + 2 - 1, w)
            else none
          else none
        else none
      else none
    else none
  else none

/-- The qualifier list of lines 401-407. -/
def qualifierWords : List Str :=
  [ofStr "very", ofStr "really", ofStr "quite", ofStr "pretty", ofStr "somewhat"]

/-- `_improve_flow` (lines 394-412). -/
def improve_flow (t : Str) : Str :=
  let t1 := runSub (passiveM (ofStr "is")) t
  let t2 := runSub (passiveM (ofStr "are")) t1
  qualifierWords.foldl (fun acc q => phraseSub q [] acc) t2

/-- `_standard_clean` (lines 176-190), with `ws` the configured filler
words. -/
def standard_clean (ws : List Str) (t : Str) : Str :=
  sentence_capitalization
    (remove_redundant_phrases (remove_filler_words_safe ws (conservative_clean t)))

/-- `_rewrite_clean` (lines 192-203). -/
def rewrite_clean (ws : List Str) (t : Str) : Str :=
  improve_flow (aggressive_tightening (standard_clean ws t))

/-! ## Final cleanup (`_final_clean`) -/

/-- `\blink\s+(https?://)` → `"link: \1"` (IGNORECASE), lines 217 and 261.
The replacement spells `link` in lowercase; the group is kept as
matched. -/
def linkM : Matcher := fun _ prev s =>
  if !isWordOpt prev && ciPrefixOf (ofStr "link") s then
    let rest := s.drop 4
    let sp := countWhile pyIsSpace rest
    if sp ≥ 1 then
      let s2 := rest.drop sp
      if ciPrefixOf (ofStr "https://") s2 then
        some (sp + 4 + 8 - 1, ofStr "link: " ++ s2.take 8)
      else if ciPrefixOf (ofStr "http://") s2 then
        some (sp + 4 + 7 - 1, ofStr "link: " ++ s2.take 7)
      else none
    else none
  else none

/-- `([a-z])\s+([A-Z][a-z]+)` → `\1. \2` (case-sensitive), lines 221 and
265: a period and a single space are spliced between a lowercase letter
and a following capitalized word. -/
def boundary221M : Matcher := fun _ _ s =>
  match s with
  | g1 :: rest =>
    if isLowerAsc g1 then
      let sp := countWhile pyIsSpace rest
      if sp ≥ 1 then
        match rest.drop sp with
        | u :: rest2 =>
          if isUpperAsc u then
            let run := countWhile isLowerAsc rest2
            if run ≥ 1 then
              some (sp + 1 + run, [g1] ++ ofStr ". " ++ (u :: rest2.take run))
            else none
          else none
        | [] => none
      else none
    else none
  | [] => none

/-- `t` ends with `pat`, with a word boundary before the occurrence. -/
def boundarySuffix (t pat : Str) : Bool :=
  pat.isSuffixOf t &&
    (t.length == pat.length || !isWordOpt (t.get? (t.length - pat.length - 1)))

/-- `\bthanks\b\.?$` → `"Thanks"` (case-sensitive), line 224.  `$` matches
at the end of the string or just before a trailing newline; the greedy
`\.?` swallows a trailing period, which the replacement drops. -/
def thanks_sub (t : Str) : Str :=
  let nl : Str := if t.getLast? = some '\n' then ['\n'] else []
  let core := if nl = [] then t else t.dropLast
  if boundarySuffix core (ofStr "thanks.") then
    core.take (core.length - 7) ++ ofStr "Thanks" ++ nl
  else if boundarySuffix core (ofStr "thanks") then
    core.take (core.length - 6) ++ ofStr "Thanks" ++ nl
  else t

/-- `,+` → `","` (line 245). -/
def commaRunM : Matcher := fun _ _ s =>
  match s with
  | ',' :: rest => some (countWhile (fun c => c == ',') rest, [','])
  | _ => none

/-- `\s*,\s*` → `", "` (line 247). -/
def commaSpaceM : Matcher := fun _ _ s =>
  let a := countWhile pyIsSpace s
  if (s.drop a).head? = some ',' then
    let b := countWhile pyIsSpace (s.drop (a + 1))
    some (a + b, ofStr ", ")
  else none

/-- `\s*\.\s*` → `". "` (line 248). -/
def periodSpaceM : Matcher := fun _ _ s =>
  let a := countWhile pyIsSpace s
  if (s.drop a).head? = some '.' then
    let b := countWhile pyIsSpace (s.drop (a + 1))
    some (a + b, ofStr ". ")
  else none

/-- `\s+([,.!?;:])` → `\1` (line 251). -/
def spaceBeforePunctM : Matcher := fun _ _ s =>
  let a := countWhile pyIsSpace s
  if a ≥ 1 then
    match (s.drop a).head? with
    | some p => if punctCh p then some (a, [p]) else none
    | none => none
  else none

/-- `([,.!?;:])(?=[^\s])` → `\1 ` (line 254): the lookahead character is
not consumed. -/
def punctLookaheadM : Matcher := fun _ _ s =>
  match s with
  | p :: rest =>
    if punctCh p then
      match rest.head? with
      | some c => if !pyIsSpace c then some (0, [p, ' ']) else none
      | none => none
    else none
  | [] => none

/-- `any(text.endswith(match.group()) for match in code_pattern.finditer(text))`
(lines 274-277). -/
def ends_with_code (t : Str) : Bool :=
  (finditer codeFind t).any (fun m => m.2.2.isSuffixOf t)

/-- The trailing-period rule of lines 272-279. -/
def add_final_period (t : Str) : Str :=
  match t.getLast? with
  | none => t
  | some c =>
    if (ofStr ".!?;:").contains c then t
    else if ends_with_code t then t
    else t ++ ['.']

/-- `_final_clean` (lines 205-281), in the exact order of the source. -/
def final_clean (t : Str) : Str :=
  if t = [] then t
  else
    let t1 := runSub linkM t
    let t2 := runSub boundary221M t1
    let t3 := thanks_sub t2
    let p := final_protect t3
    let t5 := collapseWs (pyStrip p.1)
    let t6 := runSub commaRunM t5
    let t7 := collapseWs t6
    let t8 := runSub commaSpaceM t7
    let t9 := runSub periodSpaceM t8
    let t10 := runSub spaceBeforePunctM t9
    let t11 := runSub punctLookaheadM t10
    let t12 := pyStrip (collapseWs t11)
    let t13 := runSub linkM t12
    let t14 := runSub boundary221M t13
    let t15 := restore t14 p.2
    pyStrip (add_final_period t15)

/-! ## `RuleEngine.clean` -/

/-- The rule engine's configuration, as far as cleaning depends on it: the
optional `filler_words` entry.  `_remove_filler_words_safe` reads it with
default `[]` (line 318); the compiled pattern of line 47 is unused by the
cleaning passes. -/
def fillerConfig := Option (List Str)

/-- The `filler_words` list `_remove_filler_words_safe` uses. -/
def safeFillers (cfg : fillerConfig) : List Str :=
  match cfg with
  | some ws => ws
  | none => []

/-- `RuleEngine.clean` (lines 79-110): the empty guard, `_pre_clean`, the
mode dispatch (an unrecognized mode skips the mode pass), `_final_clean`
and the final `strip`. -/
def rule_engine_clean (cfg : fillerConfig) (text mode : Str) : Str :=
  if pyFalsy text then []
  else
    let t1 := pre_clean text
    let t2 :=
      if mode = ofStr "conservative" then conservative_clean t1
      else if mode = ofStr "standard" then standard_clean (safeFillers cfg) t1
      else if mode = ofStr "rewrite" then rewrite_clean (safeFillers cfg) t1
      else t1
    pyStrip (final_clean t2)

/-- The configuration `CleanupManager._initialize_engines` passes to the
rule engine: `filler_words` present, defaulting to the full list. -/
def defaultCfg : fillerConfig := some fillerWordsDefault

/-! ## `CleanupManager` (`manager.py`) -/

/-- A cleanup engine as the manager sees it: its availability probe and
its `clean` operation, which may raise (`Except.error`). -/
structure EngineM where
  available : Bool
  run : Str → Str → Except Unit Str

/-- The manager's configuration surface for `clean_text`: the resolved
`cleanup.enabled` flag and the optional `cleanup.mode` / `cleanup.engine`
entries. -/
structure MgrCfg where
  enabled : Bool
  modeOpt : Option Str
  engineOpt : Option Str

/-- `"rule"`. -/
def ruleName : Str := ofStr "rule"

/-- `"standard"`. -/
def standardName : Str := ofStr "standard"

/-- `CleanupManager._try_engine` (lines 125-139): an absent engine, an
unavailable engine or a raising engine yields the input unchanged. -/
def try_engine (engines : Str → Option EngineM) (name : Str) (text mode : Str) : Str :=
  match engines name with
  | none => text
  | some e =>
    if e.available = false then text
    else
      match e.run text mode with
      | Except.error _ => text
      | Except.ok s => s

/-- `CleanupManager.clean_text` (lines 76-123): bypass and emptiness
short-circuits, the enabled check, mode and engine resolution
(`mode or "standard"` maps the empty mode to `"standard"`), the primary
engine call and the fallback re-invocation of the rule engine when the
primary returned the input unchanged. -/
def clean_text (engines : Str → Option EngineM) (cfg : MgrCfg) (text : Str)
    (mode : Option Str) (bypass : Bool) : Str :=
  if bypass || pyFalsy text then text
  else if cfg.enabled = false then text
  else
    let ename := cfg.engineOpt.getD ruleName
    let m0 := match mode with | some m => m | none => cfg.modeOpt.getD standardName
    let m1 := if m0 = [] then standardName else m0
    let cleaned := try_engine engines ename text m1
    if cleaned = text ∧ ename ≠ ruleName then try_engine engines ruleName text m1
    else cleaned

/-! ## `HttpEngine` (`http_engine.py`) -/

/-- The observable outcome of `_call_endpoint` together with the
exception behaviour of the surrounding `clean` body: the call raised, it
returned `None` (transport error, JSON error, unrecognized payload
shape), or it returned a string. -/
inductive CallResult where
  | raised : CallResult
  | parsedNone : CallResult
  | value : Str → CallResult

/-- `HttpEngine._fallback_clean` (lines 129-133): a fresh
`RuleEngine(self.config)` cleaning the same `(text, mode)`. -/
def fallback_clean (cfg : fillerConfig) (text mode : Str) : Str :=
  rule_engine_clean cfg text mode

/-- `HttpEngine.clean` (lines 26-49), with the endpoint's behaviour made
explicit as a `CallResult`: empty or whitespace-only input is returned
unchanged without any request; a truthy response is stripped and
returned; an empty response, a `None` result or a raised exception all
fall back to the rule engine. -/
def http_clean (cfg : fillerConfig) (result : CallResult) (text mode : Str) : Str :=
  if pyFalsy text then text
  else
    match result with
    | CallResult.raised => fallback_clean cfg text mode
    | CallResult.parsedNone => fallback_clean cfg text mode
    | CallResult.value s => if s ≠ [] then pyStrip s else fallback_clean cfg text mode

/-- The failure outcomes of the endpoint call: a raised transport error or
timeout, a malformed response (parsed to `None`), or an empty response. -/
def isFailureResult : CallResult → Bool
  | CallResult.raised => true
  | CallResult.parsedNone => true
  | CallResult.value s => s.isEmpty

/-! ## Claim-level predicates -/

/-- `pat` occurs as a contiguous substring of the text. -/
def containsSub (pat : Str) : Str → Bool
  | [] => pat.isPrefixOf []
  | c :: rest => pat.isPrefixOf (c :: rest) || containsSub pat rest

/-- The spans of a match list are pairwise non-overlapping. -/
def spansDisjointB : List (Nat × Nat × Str) → Bool
  | [] => true
  | (s, e, _) :: ms =>
    ms.all (fun m2 => e ≤ m2.1 || m2.2.1 ≤ s) && spansDisjointB ms

/-- The spans of a match list are strictly ascending and non-overlapping,
with every start at or after the bound. -/
def ascSpans : Nat → List (Nat × Nat × Str) → Bool
  | _, [] => true
  | lb, (s, e, _) :: ms => (lb ≤ s) && (s < e) && ascSpans e ms

/-- No punctuation character is immediately preceded by a space (the
first argument is the character before the scanned suffix). -/
def noSpaceBeforePunct : Option Char → Str → Bool
  | _, [] => true
  | prev, c :: rest =>
    (if punctCh c then !(prev == some ' ') else true) && noSpaceBeforePunct (some c) rest

/-- Every punctuation character is immediately preceded and followed by a
space, and no two spaces are adjacent (so the surrounding spaces are
exactly one on each side). -/
def spacingOk : Option Char → Str → Bool
  | _, [] => true
  | prev, c :: rest =>
    (if punctCh c then (prev == some ' ') && (rest.head? == some ' ') else true) &&
    (if c = ' ' then !(prev == some ' ') else true) &&
    spacingOk (some c) rest

/-- The punctuation-spacing normalization of `_pre_clean`, lines 146-148:
the `" \1 "` substitution followed by whitespace re-collapse. -/
def punct_spacing_norm (t : Str) : Str := collapseWs (runSub punctSpM t)

/-! ## Claim theorems -/

/-- C1: the claim states that for every input containing a URL, email or
backtick-delimited code span and every mode, that substring appears
byte-for-byte unmodified in `RuleEngine.clean`'s output.  The code
violates this: `_remove_redundant_phrases` (and `_improve_flow`) run with
no span protection, so in standard mode the code span `` `kind of` `` is
gutted to ``` `` ``` and the output is ``` ``. ```, which does not contain
the span. -/
theorem C1_code_span_not_preserved :
    rule_engine_clean defaultCfg (ofStr "`kind of`") (ofStr "standard") = ofStr "``." ∧
    containsSub (ofStr "`kind of`")
      (rule_engine_clean defaultCfg (ofStr "`kind of`") (ofStr "standard")) = false := by
  constructor <;> decide

/-- C2: the claim states `restore(protect(text)) == text` for arbitrary
text.  The code violates this when matches of different patterns overlap:
for `` `a@b.co` `` the email match `[1,7)` and the code match `[0,8)`
overlap, the right-to-left splice of the second placeholder lands inside
the first one, and restoring yields `` `a@b.co`RVED_0__` ``, not the
original text. -/
theorem C2_roundtrip_fails_on_overlap :
    restore (pre_protect (ofStr "`a@b.co`")).1 (pre_protect (ofStr "`a@b.co`")).2 =
      ofStr "`a@b.co`RVED_0__`" ∧
    restore (pre_protect (ofStr "`a@b.co`")).1 (pre_protect (ofStr "`a@b.co`")).2 ≠
      ofStr "`a@b.co`" := by
  constructor <;> decide

/-- C4: the claim states `_final_clean` is idempotent.  The code violates
this on inputs with overlapping protected spans: on `` `a@b.co` `` one
application yields `` `a@b.co`_PRESERVED_0__`. `` and a second
application yields `` `a@b.co`_PRESERVED_0__`_PRESERVED_0__`. ``, a
different string. -/
theorem C4_final_clean_not_idempotent :
    final_clean (ofStr "`a@b.co`") = ofStr "`a@b.co`_PRESERVED_0__`." ∧
    final_clean (final_clean (ofStr "`a@b.co`")) =
      ofStr "`a@b.co`_PRESERVED_0__`_PRESERVED_0__`." ∧
    final_clean (final_clean (ofStr "`a@b.co`")) ≠ final_clean (ofStr "`a@b.co`") := by
  refine ⟨by decide, by decide, by decide⟩

/-- C9: the claim states that `clean("soooo goooood", conservative)`
returns `"Soo goo."`.  It does not: the letter-run collapse keeps the
final `d` of `"goooood"`, so the output is `"Soo good."`. -/
theorem C9_expected_output_wrong :
    rule_engine_clean defaultCfg (ofStr "soooo goooood") (ofStr "conservative") ≠
      ofStr "Soo goo." := by
  decide

/-- C9 (amended): `clean("soooo goooood", conservative)` collapses every
run of three or more identical letters to exactly two, capitalizes the
first character and appends a period, yielding `"Soo good."` (the `d` of
`"goooood"` is kept). -/
theorem C9_amended_output :
    rule_engine_clean defaultCfg (ofStr "soooo goooood") (ofStr "conservative") =
      ofStr "Soo good." := by
  decide

/-- C6: the claim states the collected preserved-span ranges of a single
protection scan are pairwise non-overlapping, overlaps being resolved by
earliest-pattern-wins search order.  The code has no overlap resolution:
on `` `a@b.co` `` the collected list contains the email span `[1,7)` and
the code span `[0,8)`, which overlap. -/
theorem C6_collected_spans_overlap :
    spansDisjointB (allPreMatches (ofStr "`a@b.co`")) = false := by
  decide

/-- C5: the claim states the character count of standard output is at
most that of conservative output for every input.  It is not: on
`"go hello world"` the standard pipeline's sentence-starter repair
inserts `". "`, giving `"Go. Hello world."` (16 characters) against
conservative's `"Go hello world."` (15 characters). -/
theorem C5_standard_longer_than_conservative :
    ¬ ((rule_engine_clean defaultCfg (ofStr "go hello world") (ofStr "standard")).length ≤
       (rule_engine_clean defaultCfg (ofStr "go hello world") (ofStr "conservative")).length) := by
  decide

/-- C8: the claim states that after the pre-clean stage each punctuation
character is preceded by no space.  It is not: the substitution of line
147 replaces `\s*([,.!?;:])\s*` by `" \1 "`, putting one space on each
side, so `_pre_clean("a,b") = "a , b"` has a space before the comma. -/
theorem C8_space_before_punct_in_pre_clean :
    pre_clean (ofStr "a,b") = ofStr "a , b" ∧
    noSpaceBeforePunct none (pre_clean (ofStr "a,b")) = false := by
  constructor <;> decide

/-- C10: for every configuration, every empty or whitespace-only input
and every mode string, `RuleEngine.clean` returns the empty string, while
`CleanupManager.clean_text` returns such input unchanged before reaching
any engine (for every registry, manager configuration, optional mode and
bypass flag). -/
theorem C10_empty_input (cfg : fillerConfig) (text mode : Str)
    (h : pyFalsy text = true) :
    rule_engine_clean cfg text mode = [] ∧
    ∀ (engines : Str → Option EngineM) (mcfg : MgrCfg) (omode : Option Str) (byp : Bool),
      clean_text engines mcfg text omode byp = text := by
  constructor
  · simp [rule_engine_clean, h]
  · intro engines mcfg omode byp
    cases byp <;> simp [clean_text, h]

/-- Witness for C10 at the whitespace-only input `"  "`. -/
theorem C10_empty_input_witness :
    pyFalsy (ofStr "  ") = true ∧
    rule_engine_clean defaultCfg (ofStr "  ") (ofStr "standard") = [] := by
  exact ⟨by decide, (C10_empty_input defaultCfg (ofStr "  ") (ofStr "standard") (by decide)).1⟩


/-- With no bypass, non-degenerate text, cleanup enabled and a non-empty
explicit mode, `clean_text` reduces to the primary-engine call plus the
no-change fallback test of lines 106-112. -/
theorem clean_text_unfold (engines : Str → Option EngineM) (cfg : MgrCfg)
    (text mode : Str) (htext : pyFalsy text = false) (hen : cfg.enabled = true)
    (hmode : mode ≠ []) :
    clean_text engines cfg text (some mode) false =
      (if try_engine engines (cfg.engineOpt.getD ruleName) text mode = text ∧
          cfg.engineOpt.getD ruleName ≠ ruleName
       then try_engine engines ruleName text mode
       else try_engine engines (cfg.engineOpt.getD ruleName) text mode) := by
  simp only [clean_text, htext, hen, Bool.or_false, Bool.false_or, if_neg hmode]
  simp

/-- C3: in `CleanupManager.clean_text`, with cleanup enabled, text
neither empty nor whitespace-only, no bypass and an explicit non-empty
mode: whenever the selected engine's result equals the original input
and the selected engine is not the rule engine, the returned value is
the rule engine's result on the same `(text, mode)`; when the selected
engine is the rule engine, the returned value is the selected engine's
result as-is (no re-invocation). -/
theorem C3_manager_fallback_rule (engines : Str → Option EngineM) (cfg : MgrCfg)
    (text mode : Str) (htext : pyFalsy text = false) (hen : cfg.enabled = true)
    (hmode : mode ≠ []) :
    (try_engine engines (cfg.engineOpt.getD ruleName) text mode = text →
      cfg.engineOpt.getD ruleName ≠ ruleName →
      clean_text engines cfg text (some mode) false = try_engine engines ruleName text mode) ∧
    (cfg.engineOpt.getD ruleName = ruleName →
      clean_text engines cfg text (some mode) false =
        try_engine engines (cfg.engineOpt.getD ruleName) text mode) := by
  rw [clean_text_unfold engines cfg text mode htext hen hmode]
  constructor
  · intro heq hne
    rw [if_pos ⟨heq, hne⟩]
  · intro hr
    rw [if_neg (fun h => h.2 hr)]

/-- Witness for C3: a registry whose `"http"` engine returns its input
unchanged, with `"http"` selected; `clean_text` returns the rule
engine's result (the rule engine being absent from this registry, that
is the input itself). -/
theorem C3_manager_fallback_rule_witness :
    clean_text
      (fun n => if n = ofStr "http" then some ⟨true, fun t _ => Except.ok t⟩ else none)
      ⟨true, none, some (ofStr "http")⟩ (ofStr "hi") (some (ofStr "standard")) false =
    try_engine
      (fun n => if n = ofStr "http" then some ⟨true, fun t _ => Except.ok t⟩ else none)
      ruleName (ofStr "hi") (ofStr "standard") := by
  exact (C3_manager_fallback_rule _ _ (ofStr "hi") (ofStr "standard")
      (by decide) rfl (by decide)).1 (by decide) (by decide)

/-- C7: whenever the HTTP endpoint call raises, returns a malformed
(`None`) result or returns an empty string, `HttpEngine.clean` on a
non-degenerate input returns exactly the rule engine's `clean` on the
same `(text, mode)` (the fallback constructs a `RuleEngine` over the
HTTP engine's own configuration), propagating no error. -/
theorem C7_http_fallback_to_rule (cfg : fillerConfig) (result : CallResult)
    (text mode : Str) (htext : pyFalsy text = false)
    (hfail : isFailureResult result = true) :
    http_clean cfg result text mode = rule_engine_clean cfg text mode := by
  cases result with
  | raised => simp [http_clean, htext, fallback_clean]
  | parsedNone => simp [http_clean, htext, fallback_clean]
  | value s =>
    simp only [isFailureResult, List.isEmpty_iff] at hfail
    simp [http_clean, htext, hfail, fallback_clean]

/-- Witness for C7 at a raising endpoint call on `"hi"`. -/
theorem C7_http_fallback_to_rule_witness :
    pyFalsy (ofStr "hi") = false ∧
    http_clean defaultCfg CallResult.raised (ofStr "hi") (ofStr "standard") =
      rule_engine_clean defaultCfg (ofStr "hi") (ofStr "standard") := by
  exact ⟨by decide, C7_http_fallback_to_rule defaultCfg CallResult.raised
    (ofStr "hi") (ofStr "standard") (by decide) (by decide)⟩

/-- Weakening the lower bound of `ascSpans`. -/
theorem ascSpans_mono : ∀ (l : List (Nat × Nat × Str)) (a b : Nat),
    b ≤ a → ascSpans a l = true → ascSpans b l = true := by
  intro l
  cases l with
  | nil => intro a b _ _; rfl
  | cons m ms =>
    intro a b hba h
    obtain ⟨s, e, w⟩ := m
    simp only [ascSpans, Bool.and_eq_true, decide_eq_true_eq] at h ⊢
    exact ⟨⟨Nat.le_trans hba h.1.1, h.1.2⟩, h.2⟩

/-- Every `finditer` scan produces spans that start at or after the scan
position, are non-empty and strictly ascend, each match continuing after
the previous one - for any matcher. -/
theorem finditerF_asc (m : FindM) :
    ∀ (fuel pos : Nat) (prev : Option Char) (t : Str),
      ascSpans pos (finditerF m fuel pos prev t) = true := by
  intro fuel
  induction fuel with
  | zero => intro pos prev t; simp [finditerF, ascSpans]
  | succ f ih =>
    intro pos prev t
    cases t with
    | nil => simp [finditerF, ascSpans]
    | cons c rest =>
      cases h : m prev (c :: rest) with
      | none =>
        simp only [finditerF, h]
        exact ascSpans_mono _ (pos + 1) pos (by omega) (ih (pos + 1) (some c) rest)
      | some extra =>
        simp only [finditerF, h, ascSpans, Bool.and_eq_true, decide_eq_true_eq]
        exact ⟨⟨Nat.le_refl pos, by omega⟩, ih (pos + 1 + extra) _ (rest.drop extra)⟩

/-- C6 (amended): within a single pattern's scan the collected spans are
pairwise non-overlapping (each match starts at or after the previous
match's end), for each of the five preserve patterns on every input; the
code performs no cross-pattern overlap resolution, so the combined
collection can contain overlapping spans. -/
theorem C6_amended_per_pattern_disjoint (t : Str) :
    (ascSpans 0 (finditer urlFind t) && ascSpans 0 (finditer emailFind t) &&
     ascSpans 0 (finditer codeFind t) && ascSpans 0 (finditer hashtagFind t) &&
     ascSpans 0 (finditer emojiFind t)) = true := by
  simp only [finditer, finditerF_asc, Bool.and_self]

/-! ## Length lemmas for the phrase-removal passes -/

/-- `countWhile` never exceeds the length. -/
theorem countWhile_le (p : Char → Bool) (l : Str) : countWhile p l ≤ l.length := by
  induction l with
  | nil => simp [countWhile]
  | cons c rest ih =>
    by_cases h : p c = true
    · simpa [countWhile, List.takeWhile_cons, h] using ih
    · simp [countWhile, List.takeWhile_cons, h]

/-- A case-insensitive prefix is no longer than the text. -/
theorem ciPrefixOf_length : ∀ (p s : Str), ciPrefixOf p s = true → p.length ≤ s.length := by
  intro p
  induction p with
  | nil => intro s _; simp
  | cons a as ih =>
    intro s h
    cases s with
    | nil => simp [ciPrefixOf] at h
    | cons b bs =>
      simp only [ciPrefixOf, Bool.and_eq_true] at h
      simpa using ih bs h.2

/-- A successful `head?` after `drop n` bounds `n` by the length. -/
theorem head?_drop_lt (l : Str) (n : Nat) (c : Char) :
    (l.drop n).head? = some c → n < l.length := by
  intro h
  by_contra hn
  rw [List.drop_eq_nil_of_le (by omega)] at h
  simp at h

/-- A bounded matcher: every match replaces `extra + 1` in-range
characters by at most `extra + 1` characters. -/
def BoundedM (m : Matcher) : Prop :=
  ∀ (pos : Nat) (prev : Option Char) (c : Char) (rest : Str) (extra : Nat) (rep : Str),
    m pos prev (c :: rest) = some (extra, rep) →
    rep.length ≤ 1 + extra ∧ extra ≤ rest.length

/-- A substitution by a bounded matcher never increases the length. -/
theorem runSubF_length (m : Matcher) (hm : BoundedM m) :
    ∀ (fuel pos : Nat) (prev : Option Char) (t : Str),
      (runSubF m fuel pos prev t).length ≤ t.length := by
  intro fuel
  induction fuel with
  | zero => intro pos prev t; simp [runSubF]
  | succ f ih =>
    intro pos prev t
    cases t with
    | nil => simp [runSubF]
    | cons c rest =>
      cases h : m pos prev (c :: rest) with
      | none =>
        simp only [runSubF, h, List.length_cons]
        exact Nat.succ_le_succ (ih (pos + 1) (some c) rest)
      | some pr =>
        obtain ⟨extra, rep⟩ := pr
        obtain ⟨h1, h2⟩ := hm pos prev c rest extra rep h
        simp only [runSubF, h, List.length_append, List.length_cons]
        have h3 := ih (pos + 1 + extra) (some ((rest.take extra).getLastD c)) (rest.drop extra)
        rw [List.length_drop] at h3
        omega

/-- `runSub` by a bounded matcher never increases the length. -/
theorem runSub_length (m : Matcher) (hm : BoundedM m) (t : Str) :
    (runSub m t).length ≤ t.length :=
  runSubF_length m hm t.length 0 none t

/-- The whole-phrase matcher is bounded when the replacement is no longer
than the (non-empty) phrase. -/
theorem phraseM_bounded (phrase rep : Str) (hph : phrase ≠ [])
    (hrep : rep.length ≤ phrase.length) : BoundedM (phraseM phrase rep) := by
  intro pos prev c rest extra r h
  simp only [phraseM] at h
  split at h
  case isTrue hc =>
    obtain ⟨rfl, rfl⟩ : phrase.length - 1 = extra ∧ rep = r := by
      injection h with h'
      exact ⟨congrArg Prod.fst h', congrArg Prod.snd h'⟩
    simp only [Bool.and_eq_true] at hc
    have hlen := ciPrefixOf_length phrase (c :: rest) hc.1.2
    have hpos : 1 ≤ phrase.length := by
      cases phrase with
      | nil => exact absurd rfl hph
      | cons _ _ => simp
    simp only [List.length_cons] at hlen
    constructor <;> omega
  case isFalse => exact absurd h (by simp)

/-- One whole-phrase substitution never increases the length. -/
theorem phraseSub_length (phrase rep : Str) (hph : phrase ≠ [])
    (hrep : rep.length ≤ phrase.length) (t : Str) :
    (phraseSub phrase rep t).length ≤ t.length :=
  runSub_length _ (phraseM_bounded phrase rep hph hrep) t

/-- `dropWhile` never increases the length. -/
theorem dropWhile_length_le (p : Char → Bool) : ∀ (l : Str),
    (l.dropWhile p).length ≤ l.length := by
  intro l
  induction l with
  | nil => simp
  | cons c rest ih =>
    by_cases h : p c = true
    · simp only [List.dropWhile_cons, h, if_true]
      exact Nat.le_trans ih (by simp)
    · simp [List.dropWhile_cons, h]

/-- `collapseWsF` never increases the length. -/
theorem collapseWsF_length : ∀ (fuel : Nat) (t : Str),
    (collapseWsF fuel t).length ≤ t.length := by
  intro fuel
  induction fuel with
  | zero => intro t; simp [collapseWsF]
  | succ f ih =>
    intro t
    cases t with
    | nil => simp [collapseWsF]
    | cons c rest =>
      by_cases h : pyIsSpace c = true
      · simp only [collapseWsF, h, if_true, List.length_cons]
        have h2 := ih (rest.dropWhile pyIsSpace)
        have h3 : (rest.dropWhile pyIsSpace).length ≤ rest.length :=
          dropWhile_length_le pyIsSpace rest
        omega
      · simp only [collapseWsF, h, if_false, List.length_cons]
        exact Nat.succ_le_succ (ih rest)

/-- `collapseWs` never increases the length. -/
theorem collapseWs_length (t : Str) : (collapseWs t).length ≤ t.length :=
  collapseWsF_length t.length t


/-- Splitting a `drop` at a cons determines the length. -/
theorem drop_cons_length {l r : Str} {n : Nat} {c : Char} (h : l.drop n = c :: r) :
    n + r.length + 1 = l.length := by
  have := congrArg List.length h
  rw [List.length_drop] at this
  have hn : n ≤ l.length := by
    by_contra hn
    rw [List.drop_eq_nil_of_le (by omega)] at h
    simp at h
  simp at this
  omega

theorem doubleCommaM_bounded : BoundedM doubleCommaM := by
  intro pos prev c rest extra r h
  simp only [doubleCommaM] at h
  split at h
  case _ r1 heq1 =>
    split at h
    case _ r2 heq2 =>
      obtain ⟨rfl, rfl⟩ : _ = extra ∧ _ = r := by
        injection h with h'
        exact ⟨congrArg Prod.fst h', congrArg Prod.snd h'⟩
      have h1 := drop_cons_length heq1
      have h2 := drop_cons_length heq2
      have h3 := countWhile_le pyIsSpace r2
      have h4 := countWhile_le pyIsSpace r1
      simp only [List.length_cons] at h1
      constructor
      · have hr : (ofStr ", ").length = 2 := rfl
        rw [hr]
        omega
      · omega
    case _ => exact absurd h (by simp)
  case _ => exact absurd h (by simp)

theorem commaCommaM_bounded : BoundedM commaCommaM := by
  intro pos prev c rest extra r h
  simp only [commaCommaM] at h
  split at h
  case _ c2 rest2 heqq =>
    split at h
    case _ r2 heq2 =>
      obtain ⟨rfl, rfl⟩ : _ = extra ∧ _ = r := by
        injection h with h'
        exact ⟨congrArg Prod.fst h', congrArg Prod.snd h'⟩
      injection heqq with hc1 hr1
      subst hr1
      have h1 := drop_cons_length heq2
      constructor
      · simp
      · omega
    case _ => exact absurd h (by simp)
  case _ => exact absurd h (by simp)

theorem passiveM_bounded (verb : Str) : BoundedM (passiveM verb) := by
  intro pos prev c rest extra r h
  simp only [passiveM] at h
  split at h
  case isFalse => exact absurd h (by simp)
  case isTrue hc =>
    split at h
    case isFalse => exact absurd h (by simp)
    case isTrue hb1 =>
      split at h
      case isFalse => exact absurd h (by simp)
      case isTrue hsp1 =>
        split at h
        case isFalse => exact absurd h (by simp)
        case isTrue hw =>
          split at h
          case isFalse => exact absurd h (by simp)
          case isTrue hsp2 =>
            split at h
            case isFalse => exact absurd h (by simp)
            case isTrue hby =>
              obtain ⟨rfl, rfl⟩ : _ = extra ∧ _ = r := by
                injection h with h'
                exact ⟨congrArg Prod.fst h', congrArg Prod.snd h'⟩
              simp only [Bool.and_eq_true] at hc hby
              have l0 : verb.length ≤ (c :: rest).length :=
                ciPrefixOf_length _ _ hc.2
              have l1 : ((c :: rest).drop verb.length).length =
                  (c :: rest).length - verb.length := List.length_drop _ _
              have l2 := countWhile_le pyIsSpace ((c :: rest).drop verb.length)
              have l3 : (((c :: rest).drop verb.length).drop
                  (countWhile pyIsSpace ((c :: rest).drop verb.length))).length =
                  ((c :: rest).drop verb.length).length -
                    countWhile pyIsSpace ((c :: rest).drop verb.length) := List.length_drop _ _
              set r1 := (c :: rest).drop verb.length with hr1
              set sp1 := countWhile pyIsSpace r1 with hsp1d
              set r2 := r1.drop sp1 with hr2
              have l4 := countWhile_le isWordCh r2
              simp only [countWhile] at l4
              set w := r2.takeWhile isWordCh with hwd
              have l5 : (r2.drop w.length).length = r2.length - w.length := List.length_drop _ _
              set r3 := r2.drop w.length with hr3
              have l6 := countWhile_le pyIsSpace r3
              have l7 : (r3.drop (countWhile pyIsSpace r3)).length =
                  r3.length - countWhile pyIsSpace r3 := List.length_drop _ _
              set sp2 := countWhile pyIsSpace r3 with hsp2d
              set r4 := r3.drop sp2 with hr4
              have l8 : (ofStr "by").length ≤ r4.length := ciPrefixOf_length _ _ hby.1
              have l9 : (ofStr "by").length = 2 := rfl
              simp only [List.length_cons] at l0 l1
              dsimp only
              constructor
              · omega
              · omega

/-- Folding deletion-only phrase substitutions never increases length. -/
theorem foldl_phraseSub_del_length (ps : List Str) (hne : ∀ p ∈ ps, p ≠ []) :
    ∀ t : Str, (ps.foldl (fun acc p => phraseSub p [] acc) t).length ≤ t.length := by
  induction ps with
  | nil => intro t; simp
  | cons p ps ih =>
    intro t
    simp only [List.foldl]
    exact Nat.le_trans
      (ih (fun q hq => hne q (by simp [hq])) (phraseSub p [] t))
      (phraseSub_length p [] (hne p (by simp)) (by simp) t)

/-- Folding shrinking phrase substitutions never increases length. -/
theorem foldl_phraseSub_rep_length (ps : List (Str × Str))
    (hps : ∀ p ∈ ps, p.1 ≠ [] ∧ p.2.length ≤ p.1.length) :
    ∀ t : Str, (ps.foldl (fun acc p => phraseSub p.1 p.2 acc) t).length ≤ t.length := by
  induction ps with
  | nil => intro t; simp
  | cons p ps ih =>
    intro t
    simp only [List.foldl]
    exact Nat.le_trans
      (ih (fun q hq => hps q (by simp [hq])) (phraseSub p.1 p.2 t))
      (phraseSub_length p.1 p.2 (hps p (by simp)).1 (hps p (by simp)).2 t)

/-- `_remove_redundant_phrases` never increases the character count. -/
theorem remove_redundant_phrases_length (t : Str) :
    (remove_redundant_phrases t).length ≤ t.length := by
  unfold remove_redundant_phrases
  refine Nat.le_trans (runSub_length _ commaCommaM_bounded _) ?_
  refine Nat.le_trans (runSub_length _ doubleCommaM_bounded _) ?_
  refine Nat.le_trans (collapseWs_length _) ?_
  exact foldl_phraseSub_del_length redundantPhrases (by decide) t

/-- `_aggressive_tightening` never increases the character count. -/
theorem aggressive_tightening_length (t : Str) :
    (aggressive_tightening t).length ≤ t.length := by
  unfold aggressive_tightening
  exact foldl_phraseSub_rep_length tighteningPairs (by decide) t

/-- `_improve_flow` never increases the character count. -/
theorem improve_flow_length (t : Str) :
    (improve_flow t).length ≤ t.length := by
  unfold improve_flow
  refine Nat.le_trans (foldl_phraseSub_del_length qualifierWords (by decide) _) ?_
  refine Nat.le_trans (runSub_length _ (passiveM_bounded (ofStr "are")) _) ?_
  exact runSub_length _ (passiveM_bounded (ofStr "is")) t

/-- C5 (amended): the phrase-removal and tightening passes
(`_remove_redundant_phrases`, `_aggressive_tightening`, `_improve_flow`)
individually never increase the character count of the text, for every
input; the end-to-end mode outputs are not length-monotone, because the
standard pipeline's sentence-starter repair can insert characters. -/
theorem C5_amended_phrase_passes_nonincreasing (t : Str) :
    (remove_redundant_phrases t).length ≤ t.length ∧
    (aggressive_tightening t).length ≤ t.length ∧
    (improve_flow t).length ≤ t.length :=
  ⟨remove_redundant_phrases_length t, aggressive_tightening_length t,
    improve_flow_length t⟩

/-! ## Spacing properties of the punctuation-normalization step -/

/-- Every punctuation character has a literal space immediately before
and immediately after (the first argument is the preceding character). -/
def punctSpaced : Option Char → Str → Bool
  | _, [] => true
  | prev, c :: rest =>
    (if punctCh c then (prev == some ' ') && (rest.head? == some ' ') else true) &&
    punctSpaced (some c) rest

theorem punct_not_space (c : Char) (h : punctCh c = true) : pyIsSpace c = false := by
  simp only [punctCh, Bool.or_eq_true, beq_iff_eq] at h
  rcases h with ((((h | h) | h) | h) | h) | h <;> subst h <;> decide

theorem punctSpM_fires (pos : Nat) (prev : Option Char) (c : Char) (rest : Str)
    (h : punctCh c = true) :
    punctSpM pos prev (c :: rest) =
      some (countWhile pyIsSpace rest, [' ', c, ' ']) := by
  have hw := punct_not_space c h
  simp [punctSpM, countWhile, List.takeWhile_cons, hw, h]

theorem punctSpM_spaced :
    ∀ (fuel pos : Nat) (prev : Option Char) (t : Str), t.length ≤ fuel →
      ∀ q, punctSpaced q (runSubF punctSpM fuel pos prev t) = true := by
  intro fuel
  induction fuel with
  | zero =>
    intro pos prev t ht q
    have : t = [] := List.eq_nil_of_length_eq_zero (by omega)
    subst this
    rfl
  | succ f ih =>
    intro pos prev t ht q
    cases t with
    | nil => rfl
    | cons c rest =>
      simp only [List.length_cons] at ht
      cases h : punctSpM pos prev (c :: rest) with
      | none =>
        have hc : punctCh c = false := by
          by_contra hcc
          rw [punctSpM_fires pos prev c rest (by revert hcc; cases punctCh c <;> simp)] at h
          exact absurd h (by simp)
        simp only [runSubF, h, punctSpaced, hc, if_false, Bool.true_and]
        exact ih (pos + 1) (some c) rest (by omega) (some c)
      | some pr =>
        obtain ⟨extra, rep⟩ := pr
        have hshape : ∃ p, punctCh p = true ∧ rep = [' ', p, ' '] ∧ extra ≤ rest.length := by
          simp only [punctSpM] at h
          split at h
          case _ p hp =>
            split at h
            case isTrue hpc =>
              refine ⟨p, hpc, ?_, ?_⟩
              · injection h with h'
                exact (congrArg Prod.snd h').symm
              · obtain rfl : _ = extra := congrArg Prod.fst (Option.some.inj h)
                have h1 := head?_drop_lt (c :: rest) _ _ hp
                have h2 := countWhile_le pyIsSpace
                  ((c :: rest).drop (countWhile pyIsSpace (c :: rest) + 1))
                have h3 : (((c :: rest).drop (countWhile pyIsSpace (c :: rest) + 1))).length =
                    (c :: rest).length - (countWhile pyIsSpace (c :: rest) + 1) :=
                  List.length_drop _ _
                simp only [List.length_cons] at h1 h3
                omega
            case isFalse => exact absurd h (by simp)
          case _ => exact absurd h (by simp)
        obtain ⟨p, hpc, rfl, hex⟩ := hshape
        simp only [runSubF, h, List.cons_append, List.nil_append]
        have hsp : punctCh ' ' = false := by decide
        simp only [punctSpaced, hsp, hpc, if_false, if_true, List.head?_cons,
          beq_self_eq_true, Bool.and_self, Bool.true_and]
        exact ih (pos + 1 + extra) (some ((rest.take extra).getLastD c))
          (rest.drop extra) (by rw [List.length_drop]; omega) (some ' ')

theorem head_dropWhile_not (l : Str) :
    ∀ c, (l.dropWhile pyIsSpace).head? = some c → pyIsSpace c = false := by
  induction l with
  | nil => intro c h; simp at h
  | cons a rest ih =>
    intro c h
    by_cases ha : pyIsSpace a = true
    · rw [List.dropWhile_cons, if_pos ha] at h
      exact ih c h
    · rw [List.dropWhile_cons, if_neg ha] at h
      simp only [List.head?_cons, Option.some.injEq] at h
      subst h
      exact eq_false_of_ne_true ha

theorem punctSpaced_dropWhile_ex : ∀ (u : Str) (q : Option Char),
    punctSpaced q u = true → ∃ q', punctSpaced q' (u.dropWhile pyIsSpace) = true := by
  intro u
  induction u with
  | nil => intro q _; exact ⟨q, rfl⟩
  | cons a rest ih =>
    intro q h
    by_cases ha : pyIsSpace a = true
    · rw [List.dropWhile_cons, if_pos ha]
      have hnp : punctCh a = false := by
        by_contra hc
        have := punct_not_space a (by revert hc; cases punctCh a <;> simp)
        rw [this] at ha
        exact absurd ha (by simp)
      simp only [punctSpaced, hnp, if_false, Bool.true_and] at h
      exact ih (some a) h
    · rw [List.dropWhile_cons, if_neg ha]
      exact ⟨q, h⟩

theorem collapseWsF_head (f : Nat) (c : Char) (rest : Str) :
    (collapseWsF (f + 1) (c :: rest)).head? = some (if pyIsSpace c then ' ' else c) := by
  by_cases h : pyIsSpace c = true
  · simp [collapseWsF, h]
  · simp [collapseWsF, h]

theorem collapseWs_spacing :
    ∀ (fuel : Nat) (u : Str), u.length ≤ fuel →
      ∀ (qIn qOut : Option Char),
        punctSpaced qIn u = true →
        (∀ sp, qIn = some sp → pyIsSpace sp = true → qOut = some ' ') →
        (qOut = some ' ' → ∀ c r2, u = c :: r2 → pyIsSpace c = false) →
        spacingOk qOut (collapseWsF fuel u) = true := by
  intro fuel
  induction fuel with
  | zero =>
    intro u hu qIn qOut _ _ _
    have : u = [] := List.eq_nil_of_length_eq_zero (by omega)
    subst this
    rfl
  | succ f ih =>
    intro u hu qIn qOut h1 h2 h3
    cases u with
    | nil => rfl
    | cons c rest =>
      simp only [List.length_cons] at hu
      by_cases hws : pyIsSpace c = true
      · -- whitespace run: emit a single space, drop the rest of the run
        have hnp : punctCh c = false := by
          by_contra hc
          have := punct_not_space c (by revert hc; cases punctCh c <;> simp)
          rw [this] at hws
          exact absurd hws (by simp)
        simp only [collapseWsF, hws, if_true]
        have hqo : (qOut == some ' ') = false := by
          cases hq : qOut == some ' '
          · rfl
          · have := h3 (by simpa using hq) c rest rfl
            rw [this] at hws
            exact absurd hws (by simp)
        have hspp : punctCh ' ' = false := by decide
        simp only [spacingOk, hspp, if_false, if_pos rfl, hqo, Bool.not_false, Bool.true_and]
        have h1t : punctSpaced (some c) rest = true := by
          revert h1; simp [punctSpaced, hnp]
        obtain ⟨q2, hq2⟩ := punctSpaced_dropWhile_ex rest (some c) h1t
        refine ih (rest.dropWhile pyIsSpace)
          (Nat.le_trans (dropWhile_length_le pyIsSpace rest) (by omega)) q2 (some ' ') hq2 ?_ ?_
        · intro sp _ _; rfl
        · intro _ d r2 hd
          have := head_dropWhile_not rest d
          rw [hd] at this
          exact this (by simp)
      · -- non-space character: emitted verbatim
        simp only [collapseWsF, hws, if_false]
        have hcne : c ≠ ' ' := by
          intro hc
          rw [hc] at hws
          exact hws (by decide)
        by_cases hpc : punctCh c = true
        · -- punctuation head: both neighbours must be literal spaces
          have h1s : (qIn == some ' ') = true ∧ (rest.head? == some ' ') = true ∧
              punctSpaced (some c) rest = true := by
            revert h1; simp [punctSpaced, hpc]; tauto
          obtain ⟨hqin, hnext, htail⟩ := h1s
          have hqout : qOut = some ' ' := h2 ' ' (by simpa using hqin) (by decide)
          cases rest with
          | nil => simp at hnext
          | cons d r2 =>
            have hd : d = ' ' := by simpa using hnext
            subst hd
            simp only [List.length_cons] at hu
            obtain ⟨f2, rfl⟩ : ∃ f2, f = f2 + 1 := ⟨f - 1, by omega⟩
            have hhead : (collapseWsF (f2 + 1) (' ' :: r2)).head? = some ' ' := by
              rw [collapseWsF_head]
              simp
            simp only [spacingOk, hpc, if_true, hqout, hhead, beq_self_eq_true,
              Bool.true_and, Bool.and_self, if_neg hcne]
            refine ih (' ' :: r2) (by simp only [List.length_cons]; omega)
              (some c) (some c) htail ?_ ?_
            · intro sp hsp hw
              injection hsp with h5
              rw [← h5] at hw
              exact absurd hw hws
            · intro hc5
              injection hc5 with h5
              exact absurd h5 hcne
        · -- ordinary character
          have hpcf : punctCh c = false := by revert hpc; cases punctCh c <;> simp
          have h1t : punctSpaced (some c) rest = true := by
            revert h1; simp [punctSpaced, hpcf]
          simp only [spacingOk, hpcf, if_false, if_neg hcne, Bool.true_and]
          refine ih rest (by omega) (some c) (some c) h1t ?_ ?_
          · intro sp hsp hw
            injection hsp with h5
            rw [← h5] at hw
            exact absurd hw hws
          · intro hc5
            injection hc5 with h5
            exact absurd h5 hcne

/-- C8 (amended): the punctuation-spacing step of `_pre_clean` (lines
146-148) leaves every punctuation character with exactly one space
before it and exactly one space after it, for every input. -/
theorem C8_amended_one_space_each_side (t : Str) :
    spacingOk none (punct_spacing_norm t) = true := by
  unfold punct_spacing_norm collapseWs
  refine collapseWs_spacing _ _ (Nat.le_refl _) none none ?_ ?_ ?_
  · exact punctSpM_spaced t.length 0 none t (Nat.le_refl _) none
  · intro sp h
    exact absurd h (by simp)
  · intro h
    exact absurd h (by simp)
